import Mathlib

/-!
Shallow embedding of `src/src/App.tsx` (guessthecard): the card identity map,
the Lehmer-code permutation rank, the deck generation and shuffle, and the
session state handlers, together with proofs of the specified properties.
-/

set_option maxHeartbeats 1000000

/-- The source `interface Card` (lines 4-8): suit string, value 1..13, image asset URL. -/
structure Card where
  suit : String
  value : Nat
  image : String
deriving DecidableEq, Repr

/-- The source `type GamePhase = 'selection' | 'reordered'` (line 10). -/
inductive GamePhase where
  | selection
  | reordered
deriving DecidableEq, Repr

/-- The `suitOrder` record (lines 52-57): spades 0, clubs 1, hearts 2, diamonds 3.
A JS record lookup off this enumeration is `undefined` (and would propagate NaN),
embedded as `none`; every call site stays on the closed enumeration. -/
def suitOrder (s : String) : Option Nat :=
  if s = "spades" then some 0
  else if s = "clubs" then some 1
  else if s = "hearts" then some 2
  else if s = "diamonds" then some 3
  else none

/-- `getCardNumber` (lines 51-59): `card.value + suitOrder[card.suit] * 13`. -/
def getCardNumber (c : Card) : Nat :=
  c.value + (suitOrder c.suit).getD 0 * 13

/-- `factorial` (lines 102-105): `n <= 1` gives 1, else `n * factorial (n - 1)`. -/
def factorial : Nat → Nat
  | 0 => 1
  | 1 => 1
  | n + 2 => (n + 2) * factorial (n + 1)

/-- The comparator `(a, b) => a.number - b.number` (lines 75 and 128): ascending by
card number. -/
def cardLE (a b : Card) : Prop := getCardNumber a ≤ getCardNumber b

instance : DecidableRel cardLE := fun _ _ => inferInstanceAs (Decidable (_ ≤ _))

/-- The strict version of `cardLE`, used to state sortedness of lists whose card
numbers are pairwise distinct. -/
def cardLT (a b : Card) : Prop := getCardNumber a < getCardNumber b

/-- JS `Array.prototype.sort` with the consistent comparator of lines 75/128: the
stable ascending reordering by card number. All call sites sort lists whose keys
are pairwise distinct, where every comparison sort agrees with insertion sort. -/
def sortByNumber (l : List Card) : List Card := l.insertionSort cardLE

/-- Lines 68-82 of `getPermutationNumber`: sort the cards by number, then map each
card of the presentation order to its position in the sorted order (`findIndex`). -/
def posSeq (cards : List Card) : List Nat :=
  let sorted := sortByNumber cards
  cards.map (fun c => sorted.findIdx (fun x => x == c))

/-- Lines 86-95: the Lehmer counts. `consumed` collects the values already marked
`used`; each count is the number of unused positions strictly below the value. -/
def lehmerCounts : List Nat → List Nat → List Nat
  | [], _ => []
  | v :: rest, consumed =>
    ((List.range v).filter (fun j => !(consumed.contains j))).length
      :: lehmerCounts rest (v :: consumed)

/-- Line 96 accumulated over the loop: `permNumber = 1 + Σ count[i] * factorial (3 - i)`. -/
def rankFromCounts (counts : List Nat) : Nat :=
  1 + (List.zipWith (fun cnt i => cnt * factorial (3 - i)) counts
        (List.range counts.length)).sum

/-- The Lehmer rank of a position sequence (the body of lines 84-99). -/
def lehmerRank (p : List Nat) : Nat := rankFromCounts (lehmerCounts p [])

/-- `getPermutationNumber` (lines 64-100): 0 unless given exactly 4 cards, else the
1-based Lehmer rank of the presentation order relative to ascending id order. -/
def getPermutationNumber (cards : List Card) : Nat :=
  if cards.length ≠ 4 then 0
  else lehmerRank (posSeq cards)

/-- Placeholder card for out-of-range list reads (JS would yield `undefined`);
never hit under the length hypotheses of the theorems below. -/
def dummyCard : Card := ⟨"", 0, ""⟩

/-- Modelled from the spec: the repository implements only the rank direction;
spec section 4.3 describes the missing `unrank` inverse — repeatedly divide `r - 1`
by descending factorials to recover each Lehmer count, then greedily take the
count-th smallest not-yet-used canonical position. -/
def unrankGo : Nat → Nat → List Nat → List Nat
  | 0, _, _ => []
  | n + 1, m, avail =>
    let c := m / factorial n
    let x := avail.getD c 0
    x :: unrankGo n (m % factorial n) (avail.erase x)

/-- Modelled from the spec: the position sequence encoded by rank `r` in [1,24]. -/
def unrankPositions (r : Nat) : List Nat := unrankGo 4 (r - 1) [0, 1, 2, 3]

/-- Modelled from the spec: `unrank(r, C)` rebuilds the presentation order from a
rank and the canonical (ascending-id) order of the four cards. -/
def unrank (r : Nat) (cards : List Card) : List Card :=
  let sorted := sortByNumber cards
  (unrankPositions r).map (fun i => sorted.getD i dummyCard)

/-- The suit iteration order of the deck-building effect (line 22). -/
def suits : List String := ["clubs", "diamonds", "hearts", "spades"]

/-- `value.toString().padStart(2, '0')` (line 31) for the values 1..13 in use. -/
def pad2 (n : Nat) : String := if n < 10 then "0" ++ toString n else toString n

/-- The deck-building effect (lines 21-42): for each suit, for each value 1..13,
push the card whose image asset the glob found. `hasImage` models which asset
paths `import.meta.glob` resolved; the asset directory is not under the sources.
Modelled from the spec: the 52-identity universe is complete, so the deck in use
is `generateDeck (fun _ => true)`. -/
def generateDeck (hasImage : String → Bool) : List Card :=
  suits.flatMap (fun suit =>
    ((List.range 13).map (fun i => i + 1)).filterMap (fun value =>
      let imagePath := "./assets/" ++ suit ++ pad2 value ++ ".png"
      if hasImage imagePath then some ⟨suit, value, imagePath⟩ else none))

/-- One merge step of a comparison sort whose comparator is
`() => Math.random() - 0.5` (lines 45 and 147): `coin k` is the sign outcome of
the k-th comparator call (`true` = keep the left element first). Returns the
merged list and the next unused coin index. -/
def randMerge (coin : Nat → Bool) : List Card → List Card → Nat → List Card × Nat
  | [], ys, k => (ys, k)
  | x :: xs, [], k => (x :: xs, k)
  | x :: xs, y :: ys, k =>
    if coin k then
      let r := randMerge coin xs (y :: ys) (k + 1)
      (x :: r.1, r.2)
    else
      let r := randMerge coin (x :: xs) ys (k + 1)
      (y :: r.1, r.2)
termination_by xs ys _ => xs.length + ys.length

/-- Merge sort driven by the random comparator's outcome stream: the model of
`cards.sort(() => Math.random() - 0.5)`. Whatever the outcomes, a comparison
sort only rearranges its input. -/
def randMergeSort (coin : Nat → Bool) (l : List Card) (k : Nat) : List Card × Nat :=
  if l.length ≤ 1 then (l, k)
  else
    let left := l.take (l.length / 2)
    let right := l.drop (l.length / 2)
    let ls := randMergeSort coin left k
    let rs := randMergeSort coin right ls.2
    randMerge coin ls.1 rs.1 rs.2
termination_by l.length
decreasing_by
  · simp only [List.length_take]
    omega
  · simp only [List.length_drop]
    omega

/-- The deck shuffle (lines 45 and 147): sort with the random comparator, under
the outcome stream `coin`. -/
def shuffle (coin : Nat → Bool) (l : List Card) : List Card :=
  (randMergeSort coin l 0).1

/-- The component state of `App` (lines 13-18); `isLoading` is presentation-only
and carried along untouched by every handler below. -/
structure AppState where
  deck : List Card
  selectedCards : List Card
  reorderedCards : List Card
  gamePhase : GamePhase
  isLoading : Bool
  showHiddenCard : Bool
deriving DecidableEq, Repr

/-- `handleCardClick` (lines 107-113). -/
def handleCardClick (s : AppState) (card : Card) : AppState :=
  if s.gamePhase ≠ GamePhase.selection then s
  else if 5 ≤ s.selectedCards.length then s
  else if s.selectedCards.any (fun c => c.suit == card.suit && c.value == card.value) then s
  else { s with selectedCards := s.selectedCards ++ [card] }

/-- `handleReorder` (lines 115-139). Line 132 computes `getPermutationNumber` of
the first four cards but the result is never used: the displayed arrangement is
the fifth card followed by the four cards in ascending id order. -/
def handleReorder (s : AppState) : AppState :=
  if s.selectedCards.length ≠ 5 then s
  else
    let firstFour := s.selectedCards.take 4
    let fifthCard := s.selectedCards.getD 4 dummyCard
    let sortedCards := sortByNumber firstFour
    { s with
      reorderedCards := fifthCard :: sortedCards
      gamePhase := GamePhase.reordered
      showHiddenCard := false }

/-- `handleReset` (lines 141-149): clear hand and arrangement, return to
selection, hide the hidden card, reshuffle the deck. -/
def handleReset (coin : Nat → Bool) (s : AppState) : AppState :=
  { s with
    selectedCards := []
    reorderedCards := []
    gamePhase := GamePhase.selection
    showHiddenCard := false
    deck := shuffle coin s.deck }

/-- The SHOW/HIDE button's onClick (line 248): `setShowHiddenCard(!showHiddenCard)`. -/
def toggleReveal (s : AppState) : AppState :=
  { s with showHiddenCard := !s.showHiddenCard }

/-! ### Basic facts about the comparator and the sort -/

instance : IsTotal Card cardLE := ⟨fun _ _ => Nat.le_total _ _⟩

instance : IsTrans Card cardLE := ⟨fun _ _ _ h h' => Nat.le_trans h h'⟩

instance : IsAntisymm Card cardLT :=
  ⟨fun _ _ h h' => absurd (Nat.lt_trans h h') (Nat.lt_irrefl _)⟩

theorem sortByNumber_perm (l : List Card) : (sortByNumber l).Perm l :=
  List.perm_insertionSort cardLE l

theorem sortByNumber_sorted (l : List Card) : List.Sorted cardLE (sortByNumber l) :=
  List.sorted_insertionSort cardLE l

theorem sortByNumber_length (l : List Card) : (sortByNumber l).length = l.length :=
  (sortByNumber_perm l).length_eq

/-- Pairwise-distinct card numbers survive sorting. -/
theorem sortByNumber_numsNodup {l : List Card}
    (h : (l.map getCardNumber).Nodup) : ((sortByNumber l).map getCardNumber).Nodup :=
  ((sortByNumber_perm l).map getCardNumber).nodup_iff.mpr h

/-- With pairwise-distinct card numbers the sorted list is strictly increasing. -/
theorem sortByNumber_sorted_strict {l : List Card}
    (h : (l.map getCardNumber).Nodup) : List.Sorted cardLT (sortByNumber l) := by
  have hle : (sortByNumber l).Pairwise cardLE := sortByNumber_sorted l
  have hne : (sortByNumber l).Pairwise (fun a b => getCardNumber a ≠ getCardNumber b) :=
    List.pairwise_map.mp (sortByNumber_numsNodup h)
  exact List.Pairwise.imp₂ (fun _ _ hab hne => Nat.lt_of_le_of_ne hab hne) hle hne

/-- Distinct card numbers force distinct cards. -/
theorem nodup_of_numsNodup {l : List Card}
    (h : (l.map getCardNumber).Nodup) : l.Nodup :=
  List.Nodup.of_map getCardNumber h

theorem sortByNumber_nodup {l : List Card}
    (h : (l.map getCardNumber).Nodup) : (sortByNumber l).Nodup :=
  nodup_of_numsNodup (sortByNumber_numsNodup h)

/-! ### `findIndex` facts used by the position-sequence construction -/

theorem getD_eq_of_lt {α : Type} {l : List α} {n : Nat} (d : α) (h : n < l.length) :
    l.getD n d = l[n] := by
  simp [List.getD_eq_getElem?_getD, List.getElem?_eq_getElem h]

theorem findIdx_beq_lt {t : List Card} {c : Card} (hc : c ∈ t) :
    t.findIdx (fun x => x == c) < t.length :=
  List.findIdx_lt_length_of_exists ⟨c, hc, by simp⟩

theorem getD_findIdx_beq {t : List Card} {c : Card} (hc : c ∈ t) :
    t.getD (t.findIdx (fun x => x == c)) dummyCard = c := by
  have h := findIdx_beq_lt hc
  have hp := List.findIdx_getElem (p := fun x => x == c) (w := h)
  rw [getD_eq_of_lt _ h]
  exact eq_of_beq hp

/-- In a duplicate-free list, `findIndex` of the `i`-th element is `i`. -/
theorem findIdx_beq_getElem {t : List Card} (hnd : t.Nodup) {i : Nat} (hi : i < t.length) :
    t.findIdx (fun x => x == t[i]) = i := by
  refine (List.findIdx_eq hi).mpr ⟨by simp, fun j hj => ?_⟩
  simp only [beq_iff_eq, Bool.not_eq_true, beq_eq_false_iff_ne, ne_eq]
  intro heq
  exact absurd (hnd.getElem_inj_iff.mp heq) (Nat.ne_of_lt hj)

/-! ### The position sequence is a permutation of {0,1,2,3} determining the input -/

theorem posSeq_length (cards : List Card) : (posSeq cards).length = cards.length :=
  List.length_map _ _

theorem posSeq_lt {cards : List Card} {x : Nat} (hx : x ∈ posSeq cards) :
    x < cards.length := by
  simp only [posSeq, List.mem_map] at hx
  obtain ⟨c, hc, rfl⟩ := hx
  have : c ∈ sortByNumber cards := ((sortByNumber_perm cards).mem_iff).mpr hc
  simpa [sortByNumber_length] using findIdx_beq_lt this

theorem posSeq_nodup {cards : List Card}
    (h : (cards.map getCardNumber).Nodup) : (posSeq cards).Nodup := by
  refine List.Nodup.map_on ?_ (nodup_of_numsNodup h)
  intro c hc c' hc' heq
  have hcm : c ∈ sortByNumber cards := ((sortByNumber_perm cards).mem_iff).mpr hc
  have hcm' : c' ∈ sortByNumber cards := ((sortByNumber_perm cards).mem_iff).mpr hc'
  have := getD_findIdx_beq hcm
  rw [heq, getD_findIdx_beq hcm'] at this
  exact this.symm

/-- The presentation order is recovered from its position sequence by indexing
the sorted order. -/
theorem posSeq_recover {cards : List Card}
    (_h : (cards.map getCardNumber).Nodup) :
    (posSeq cards).map (fun i => (sortByNumber cards).getD i dummyCard) = cards := by
  rw [posSeq, List.map_map]
  refine List.map_congr_left ?_ |>.trans (List.map_id cards)
  intro c hc
  exact getD_findIdx_beq (((sortByNumber_perm cards).mem_iff).mpr hc)

/-! ### The 24 position sequences and the exhaustive Lehmer-rank facts -/

/-- All 24 orderings of the canonical positions {0,1,2,3}. -/
def perms4 : List (List Nat) :=
  [[0, 1, 2, 3], [0, 1, 3, 2], [0, 2, 1, 3], [0, 2, 3, 1], [0, 3, 1, 2], [0, 3, 2, 1],
   [1, 0, 2, 3], [1, 0, 3, 2], [1, 2, 0, 3], [1, 2, 3, 0], [1, 3, 0, 2], [1, 3, 2, 0],
   [2, 0, 1, 3], [2, 0, 3, 1], [2, 1, 0, 3], [2, 1, 3, 0], [2, 3, 0, 1], [2, 3, 1, 0],
   [3, 0, 1, 2], [3, 0, 2, 1], [3, 1, 0, 2], [3, 1, 2, 0], [3, 2, 0, 1], [3, 2, 1, 0]]

theorem mem_perms4_of_nodup_lt :
    ∀ a ∈ List.range 4, ∀ b ∈ List.range 4, ∀ c ∈ List.range 4, ∀ d ∈ List.range 4,
      List.Nodup [a, b, c, d] → [a, b, c, d] ∈ perms4 := by decide

/-- A duplicate-free length-4 list of positions below 4 is one of the 24 orderings. -/
theorem mem_perms4 {p : List Nat} (hlen : p.length = 4) (hnd : p.Nodup)
    (hlt : ∀ x ∈ p, x < 4) : p ∈ perms4 := by
  match p, hlen with
  | [a, b, c, d], _ =>
    exact mem_perms4_of_nodup_lt
      a (List.mem_range.mpr (hlt a (by simp)))
      b (List.mem_range.mpr (hlt b (by simp)))
      c (List.mem_range.mpr (hlt c (by simp)))
      d (List.mem_range.mpr (hlt d (by simp)))
      hnd

theorem lehmerRank_bounds : ∀ p ∈ perms4, 1 ≤ lehmerRank p ∧ lehmerRank p ≤ 24 := by
  decide

theorem lehmerRank_injOn :
    ∀ p ∈ perms4, ∀ q ∈ perms4, lehmerRank p = lehmerRank q → p = q := by decide

theorem unrankPositions_lehmerRank : ∀ p ∈ perms4, unrankPositions (lehmerRank p) = p := by
  decide

theorem lehmerRank_unrankPositions :
    ∀ r ∈ (List.range 24).map (fun i => i + 1),
      unrankPositions r ∈ perms4 ∧ lehmerRank (unrankPositions r) = r := by decide

/-- `getPermutationNumber` on a 4-card list is the Lehmer rank of its position
sequence. -/
theorem getPermutationNumber_eq_lehmerRank {cards : List Card} (h : cards.length = 4) :
    getPermutationNumber cards = lehmerRank (posSeq cards) := by
  simp [getPermutationNumber, h]

/-- The position sequence of a 4-card list with distinct numbers is one of the
24 orderings. -/
theorem posSeq_mem_perms4 {cards : List Card} (h4 : cards.length = 4)
    (hn : (cards.map getCardNumber).Nodup) : posSeq cards ∈ perms4 := by
  refine mem_perms4 (by rw [posSeq_length, h4]) (posSeq_nodup hn) ?_
  intro x hx
  have := posSeq_lt hx
  omega

/-! ### Suit ordinal evaluations -/

theorem suitOrder_spades : suitOrder "spades" = some 0 := rfl

theorem suitOrder_clubs : suitOrder "clubs" = some 1 := rfl

theorem suitOrder_hearts : suitOrder "hearts" = some 2 := rfl

theorem suitOrder_diamonds : suitOrder "diamonds" = some 3 := rfl

theorem surjective_on_enumeration :
    ∀ n ∈ (List.range 52).map (fun i => i + 1),
      ∃ s ∈ suits, ∃ v ∈ (List.range 13).map (fun i => i + 1),
        getCardNumber ⟨s, v, ""⟩ = n := by decide

/-- C3: the card-identity map computes `id = value + 13 · ordinal(suit)` with
spades 0, clubs 1, hearts 2, diamonds 3, lands in [1,52] on every legal
(suit, value) pair, is injective there, and attains every id in [1,52]. -/
theorem C3_cardNumber_bijection :
    (suitOrder "spades" = some 0 ∧ suitOrder "clubs" = some 1 ∧
     suitOrder "hearts" = some 2 ∧ suitOrder "diamonds" = some 3) ∧
    (∀ c : Card, c.suit ∈ suits → 1 ≤ c.value → c.value ≤ 13 →
      getCardNumber c = c.value + (suitOrder c.suit).getD 0 * 13 ∧
      1 ≤ getCardNumber c ∧ getCardNumber c ≤ 52) ∧
    (∀ c c' : Card, c.suit ∈ suits → 1 ≤ c.value → c.value ≤ 13 →
      c'.suit ∈ suits → 1 ≤ c'.value → c'.value ≤ 13 →
      getCardNumber c = getCardNumber c' → c.suit = c'.suit ∧ c.value = c'.value) ∧
    (∀ n : Nat, 1 ≤ n → n ≤ 52 →
      ∃ s ∈ suits, ∃ v ∈ (List.range 13).map (fun i => i + 1),
        getCardNumber ⟨s, v, ""⟩ = n) := by
  refine ⟨⟨rfl, rfl, rfl, rfl⟩, ?_, ?_, ?_⟩
  · intro c hs h1 h13
    obtain ⟨cs, cv, ci⟩ := c
    simp [suits] at hs
    simp only at h1 h13
    rcases hs with h | h | h | h <;> subst h <;>
      simp only [getCardNumber, suitOrder_clubs, suitOrder_diamonds, suitOrder_hearts,
        suitOrder_spades, Option.getD_some, eq_self_iff_true, true_and] <;> omega
  · intro c c' hs h1 h13 hs' h1' h13' heq
    obtain ⟨cs, cv, ci⟩ := c
    obtain ⟨cs', cv', ci'⟩ := c'
    simp [suits] at hs hs'
    simp only at h1 h13 h1' h13' heq ⊢
    rcases hs with h | h | h | h <;> rcases hs' with h' | h' | h' | h' <;>
      subst h <;> subst h' <;>
      simp only [getCardNumber, suitOrder_clubs, suitOrder_diamonds, suitOrder_hearts,
        suitOrder_spades, Option.getD_some] at heq <;>
      first
        | exact ⟨rfl, by omega⟩
        | exact absurd heq (by omega)
  · intro n h1 h52
    refine surjective_on_enumeration n ?_
    simp only [List.mem_map, List.mem_range]
    exact ⟨n - 1, by omega, by omega⟩

/-- C4 counterexample: the claim (and spec scenario) label the 3 of clubs with
id 14, but `getCardNumber` yields 3 + 13 · ordinal(clubs) = 3 + 13 = 16. -/
theorem C4_counterexample :
    getCardNumber ⟨"clubs", 3, "./assets/clubs03.png"⟩ = 16 ∧ (16 : Nat) ≠ 14 := by
  decide

/-- C4 (amended): for the presentation order 7♦(46), Q♠(12), 3♣(16), 2♥(28),
the position sequence is [3,0,1,2], the Lehmer counts are [3,0,0,0], and the
rank is 19. -/
theorem C4_concrete_scenario :
    getCardNumber ⟨"diamonds", 7, "d"⟩ = 46 ∧
    getCardNumber ⟨"spades", 12, "s"⟩ = 12 ∧
    getCardNumber ⟨"clubs", 3, "c"⟩ = 16 ∧
    getCardNumber ⟨"hearts", 2, "h"⟩ = 28 ∧
    posSeq [⟨"diamonds", 7, "d"⟩, ⟨"spades", 12, "s"⟩, ⟨"clubs", 3, "c"⟩, ⟨"hearts", 2, "h"⟩]
      = [3, 0, 1, 2] ∧
    lehmerCounts [3, 0, 1, 2] [] = [3, 0, 0, 0] ∧
    getPermutationNumber
      [⟨"diamonds", 7, "d"⟩, ⟨"spades", 12, "s"⟩, ⟨"clubs", 3, "c"⟩, ⟨"hearts", 2, "h"⟩]
      = 19 := by decide

/-- C8: with every asset present (the asset directory is outside the sources;
per the spec the 52-image universe is complete), deck generation yields exactly
52 pairwise-distinct identities, enumerated suit-outer/value-inner, before any
shuffle is applied. -/
theorem C8_deck_generation :
    (generateDeck (fun _ => true)).length = 52 ∧
    ((generateDeck (fun _ => true)).map (fun c => (c.suit, c.value))).Nodup ∧
    generateDeck (fun _ => true) =
      suits.flatMap (fun suit => (List.range 13).map (fun i =>
        ⟨suit, i + 1, "./assets/" ++ suit ++ pad2 (i + 1) ++ ".png"⟩)) := by
  refine ⟨by decide, by decide, by decide⟩

/-- C9: the SHOW/HIDE toggle flips only the reveal flag; deck, hand, arrangement,
phase (and the loading flag) are untouched — it is not a phase transition. -/
theorem C9_toggleReveal_frame (s : AppState) :
    (toggleReveal s).showHiddenCard = !s.showHiddenCard ∧
    (toggleReveal s).deck = s.deck ∧
    (toggleReveal s).selectedCards = s.selectedCards ∧
    (toggleReveal s).reorderedCards = s.reorderedCards ∧
    (toggleReveal s).gamePhase = s.gamePhase ∧
    (toggleReveal s).isLoading = s.isLoading :=
  ⟨rfl, rfl, rfl, rfl, rfl, rfl⟩

/-- C10: on any list whose length is not 4, `getPermutationNumber` returns the
sentinel 0, which lies outside the documented range [1,24]; no error is raised. -/
theorem C10_sentinel_zero {cards : List Card} (h : cards.length ≠ 4) :
    getPermutationNumber cards = 0 ∧ ¬(1 ≤ getPermutationNumber cards) := by
  simp [getPermutationNumber, h]

theorem C10_witness :
    getPermutationNumber [dummyCard] = 0 ∧ ¬(1 ≤ getPermutationNumber [dummyCard]) :=
  C10_sentinel_zero (by decide)

/-! ### The random-comparator sort only rearranges its input -/

theorem randMerge_perm (coin : Nat → Bool) :
    ∀ (xs ys : List Card) (k : Nat), ((randMerge coin xs ys k).1).Perm (xs ++ ys) := by
  intro xs ys k
  induction xs, ys, k using randMerge.induct coin with
  | case1 ys k => simp [randMerge]
  | case2 x xs k => simp [randMerge]
  | case3 x xs y ys k hcoin ih =>
    rw [randMerge, if_pos hcoin]
    exact ih.cons x
  | case4 x xs y ys k hcoin ih =>
    rw [randMerge, if_neg hcoin]
    exact (ih.cons y).trans (List.perm_middle).symm

theorem randMergeSort_perm (coin : Nat → Bool) :
    ∀ (l : List Card) (k : Nat), ((randMergeSort coin l k).1).Perm l := by
  intro l k
  induction l, k using randMergeSort.induct coin with
  | case1 l k h => simp [randMergeSort, h]
  | case2 l k h left right ls ih1 ih2 ih3 =>
    rw [randMergeSort, if_neg h]
    refine (randMerge_perm coin _ _ _).trans ?_
    have hp2 :
        (randMergeSort coin (List.take (l.length / 2) l) k).1.Perm
          (List.take (l.length / 2) l) := ih2
    have hp3 :
        (randMergeSort coin (List.drop (l.length / 2) l)
            (randMergeSort coin (List.take (l.length / 2) l) k).2).1.Perm
          (List.drop (l.length / 2) l) := ih3
    have hperm := hp2.append hp3
    rw [List.take_append_drop] at hperm
    exact hperm

/-- C7: for every deck and every outcome stream of the random comparator, the
shuffle is a permutation of the deck: same identities with the same
multiplicities, none lost or duplicated; likewise for the reshuffle in
`handleReset`. -/
theorem C7_shuffle_is_permutation :
    ∀ (coin : Nat → Bool) (d : List Card),
      ((shuffle coin d).Perm d ∧ ∀ c : Card, (shuffle coin d).count c = d.count c) ∧
      ∀ s : AppState, ((handleReset coin s).deck).Perm s.deck := by
  intro coin d
  refine ⟨⟨randMergeSort_perm coin d 0, fun c => (randMergeSort_perm coin d 0).count_eq c⟩, ?_⟩
  intro s
  exact randMergeSort_perm coin s.deck 0

/-! ### C1: rank range and injectivity over the 24 orderings -/

/-- C1: on every ordering of 4 cards with pairwise-distinct identity ids, the
rank lies in [1,24], and two orderings of the same 4 cards with the same rank
are the same ordering: the rank map is injective over all 24 permutations. -/
theorem C1_rank_in_range_and_injective :
    (∀ cards : List Card, cards.length = 4 → (cards.map getCardNumber).Nodup →
      1 ≤ getPermutationNumber cards ∧ getPermutationNumber cards ≤ 24) ∧
    (∀ cards cards' : List Card, cards.length = 4 → (cards.map getCardNumber).Nodup →
      cards'.Perm cards → getPermutationNumber cards' = getPermutationNumber cards →
      cards' = cards) := by
  constructor
  · intro cards h4 hn
    rw [getPermutationNumber_eq_lehmerRank h4]
    exact lehmerRank_bounds _ (posSeq_mem_perms4 h4 hn)
  · intro cards cards' h4 hn hperm heq
    have h4' : cards'.length = 4 := hperm.length_eq.trans h4
    have hn' : (cards'.map getCardNumber).Nodup :=
      ((hperm.map getCardNumber).nodup_iff).mpr hn
    have hsorteq : sortByNumber cards' = sortByNumber cards := by
      refine List.eq_of_perm_of_sorted ?_ (sortByNumber_sorted_strict hn')
        (sortByNumber_sorted_strict hn)
      exact (sortByNumber_perm cards').trans (hperm.trans (sortByNumber_perm cards).symm)
    have hps : posSeq cards' = posSeq cards := by
      refine lehmerRank_injOn _ (posSeq_mem_perms4 h4' hn') _ (posSeq_mem_perms4 h4 hn) ?_
      rw [← getPermutationNumber_eq_lehmerRank h4', ← getPermutationNumber_eq_lehmerRank h4]
      exact heq
    calc cards'
        = (posSeq cards').map (fun i => (sortByNumber cards').getD i dummyCard) :=
          (posSeq_recover hn').symm
      _ = (posSeq cards).map (fun i => (sortByNumber cards).getD i dummyCard) := by
          rw [hps, hsorteq]
      _ = cards := posSeq_recover hn

theorem C1_witness :
    (1 ≤ getPermutationNumber
        [⟨"diamonds", 7, "d"⟩, ⟨"spades", 12, "s"⟩, ⟨"clubs", 3, "c"⟩, ⟨"hearts", 2, "h"⟩] ∧
      getPermutationNumber
        [⟨"diamonds", 7, "d"⟩, ⟨"spades", 12, "s"⟩, ⟨"clubs", 3, "c"⟩, ⟨"hearts", 2, "h"⟩]
        ≤ 24) ∧
    [⟨"diamonds", 7, "d"⟩, ⟨"spades", 12, "s"⟩, ⟨"clubs", 3, "c"⟩, ⟨"hearts", 2, "h"⟩]
      = ([⟨"diamonds", 7, "d"⟩, ⟨"spades", 12, "s"⟩, ⟨"clubs", 3, "c"⟩, ⟨"hearts", 2, "h"⟩]
          : List Card) :=
  ⟨C1_rank_in_range_and_injective.1 _ (by decide) (by decide),
   C1_rank_in_range_and_injective.2 _ _ (by decide) (by decide) (by decide) rfl⟩

/-! ### C2: the spec-modelled unrank inverts the code's rank -/

theorem perms4_perm : ∀ p ∈ perms4, p.Perm [0, 1, 2, 3] := by decide

theorem perms4_len : ∀ p ∈ perms4, p.length = 4 := by decide

theorem perms4_lt : ∀ p ∈ perms4, ∀ x ∈ p, x < 4 := by decide

theorem map_getD_0123 {t : List Card} (h : t.length = 4) :
    [0, 1, 2, 3].map (fun i => t.getD i dummyCard) = t := by
  match t, h with
  | [a, b, c, d], _ => rfl

/-- Indexing the sorted order of a distinct-id 4-card list by a position
permutation and reading the position sequence back is the identity. -/
theorem posSeq_map_getD {cards : List Card} (h4 : cards.length = 4)
    (hn : (cards.map getCardNumber).Nodup) {p : List Nat} (hp : p ∈ perms4) :
    posSeq (p.map (fun i => (sortByNumber cards).getD i dummyCard)) = p := by
  have hslen : (sortByNumber cards).length = 4 := by rw [sortByNumber_length, h4]
  have hOperm :
      (p.map (fun i => (sortByNumber cards).getD i dummyCard)).Perm (sortByNumber cards) := by
    have h1 := (perms4_perm p hp).map (fun i => (sortByNumber cards).getD i dummyCard)
    rw [map_getD_0123 hslen] at h1
    exact h1
  have hnO :
      ((p.map (fun i => (sortByNumber cards).getD i dummyCard)).map getCardNumber).Nodup :=
    (hOperm.map getCardNumber).nodup_iff.mpr (sortByNumber_numsNodup hn)
  have hsort :
      sortByNumber (p.map (fun i => (sortByNumber cards).getD i dummyCard))
        = sortByNumber cards := by
    refine List.eq_of_perm_of_sorted ?_ (sortByNumber_sorted_strict hnO)
      (sortByNumber_sorted_strict hn)
    exact (sortByNumber_perm _).trans hOperm
  simp only [posSeq]
  rw [hsort, List.map_map]
  have hid : ∀ i ∈ p,
      ((fun c => (sortByNumber cards).findIdx (fun x => x == c)) ∘
        (fun i => (sortByNumber cards).getD i dummyCard)) i = i := by
    intro i hi
    have hi4 : i < (sortByNumber cards).length := by
      rw [hslen]
      exact perms4_lt p hp i hi
    simp only [Function.comp]
    rw [getD_eq_of_lt _ hi4, findIdx_beq_getElem (sortByNumber_nodup hn) hi4]
  rw [List.map_congr_left hid]
  exact List.map_id p

/-- C2: for every ordering of 4 distinct-id cards, decoding the computed rank
against the same canonical 4-set reproduces the ordering, and for every rank in
[1,24] re-ranking the decoded ordering gives the rank back. -/
theorem C2_unrank_inverts_rank :
    ∀ cards : List Card, cards.length = 4 → (cards.map getCardNumber).Nodup →
      unrank (getPermutationNumber cards) cards = cards ∧
      ∀ r : Nat, 1 ≤ r → r ≤ 24 → getPermutationNumber (unrank r cards) = r := by
  intro cards h4 hn
  constructor
  · rw [getPermutationNumber_eq_lehmerRank h4]
    simp only [unrank]
    rw [unrankPositions_lehmerRank _ (posSeq_mem_perms4 h4 hn)]
    exact posSeq_recover hn
  · intro r h1 h24
    have hr : r ∈ (List.range 24).map (fun i => i + 1) := by
      simp only [List.mem_map, List.mem_range]
      exact ⟨r - 1, by omega, by omega⟩
    obtain ⟨hpmem, hrank⟩ := lehmerRank_unrankPositions r hr
    have hOlen : (unrank r cards).length = 4 := by
      simp only [unrank, List.length_map]
      exact perms4_len _ hpmem
    rw [getPermutationNumber_eq_lehmerRank hOlen]
    simp only [unrank]
    rw [posSeq_map_getD h4 hn hpmem, hrank]

theorem C2_witness :
    unrank
        (getPermutationNumber
          [⟨"diamonds", 7, "d"⟩, ⟨"spades", 12, "s"⟩, ⟨"clubs", 3, "c"⟩, ⟨"hearts", 2, "h"⟩])
        [⟨"diamonds", 7, "d"⟩, ⟨"spades", 12, "s"⟩, ⟨"clubs", 3, "c"⟩, ⟨"hearts", 2, "h"⟩]
      = [⟨"diamonds", 7, "d"⟩, ⟨"spades", 12, "s"⟩, ⟨"clubs", 3, "c"⟩, ⟨"hearts", 2, "h"⟩] ∧
    getPermutationNumber
        (unrank 19
          [⟨"diamonds", 7, "d"⟩, ⟨"spades", 12, "s"⟩, ⟨"clubs", 3, "c"⟩, ⟨"hearts", 2, "h"⟩])
      = 19 :=
  ⟨(C2_unrank_inverts_rank _ (by decide) (by decide)).1,
   (C2_unrank_inverts_rank _ (by decide) (by decide)).2 19 (by decide) (by decide)⟩

/-! ### C5 and C6: the session handlers -/

/-- C5: committing a 5-card hand of distinct-id cards designates the 5th
selected card as the hidden card (the head of the displayed stack), stores as
the displayed arrangement the remaining four cards in ascending id order — the
sorted order, regardless of the computed permutation rank — and moves the phase
to the revealed state. -/
theorem C5_commit_hides_fifth_and_sorts :
    ∀ s : AppState, s.selectedCards.length = 5 →
      (s.selectedCards.map getCardNumber).Nodup →
      (handleReorder s).reorderedCards
          = s.selectedCards.getD 4 dummyCard :: sortByNumber (s.selectedCards.take 4) ∧
      (handleReorder s).reorderedCards.getD 0 dummyCard = s.selectedCards.getD 4 dummyCard ∧
      ((handleReorder s).reorderedCards.drop 1).Perm (s.selectedCards.take 4) ∧
      List.Sorted cardLT ((handleReorder s).reorderedCards.drop 1) ∧
      (handleReorder s).gamePhase = GamePhase.reordered := by
  intro s h5 hn
  have hn4 : ((s.selectedCards.take 4).map getCardNumber).Nodup := by
    rw [List.map_take]
    exact ((s.selectedCards.map getCardNumber).take_sublist 4).nodup hn
  rw [handleReorder, if_neg (show ¬s.selectedCards.length ≠ 5 by omega)]
  refine ⟨rfl, rfl, ?_, ?_, rfl⟩
  · exact sortByNumber_perm _
  · exact sortByNumber_sorted_strict hn4

theorem C5_witness :
    (handleReorder
        ⟨[], [⟨"diamonds", 7, "d"⟩, ⟨"spades", 12, "s"⟩, ⟨"clubs", 3, "c"⟩,
              ⟨"hearts", 2, "h"⟩, ⟨"spades", 1, "a"⟩], [],
          GamePhase.selection, false, false⟩).reorderedCards
      = ⟨"spades", 1, "a"⟩ ::
          sortByNumber [⟨"diamonds", 7, "d"⟩, ⟨"spades", 12, "s"⟩, ⟨"clubs", 3, "c"⟩,
            ⟨"hearts", 2, "h"⟩] ∧
    (handleReorder
        ⟨[], [⟨"diamonds", 7, "d"⟩, ⟨"spades", 12, "s"⟩, ⟨"clubs", 3, "c"⟩,
              ⟨"hearts", 2, "h"⟩, ⟨"spades", 1, "a"⟩], [],
          GamePhase.selection, false, false⟩).gamePhase = GamePhase.reordered := by
  have h := C5_commit_hides_fifth_and_sorts
    ⟨[], [⟨"diamonds", 7, "d"⟩, ⟨"spades", 12, "s"⟩, ⟨"clubs", 3, "c"⟩,
          ⟨"hearts", 2, "h"⟩, ⟨"spades", 1, "a"⟩], [],
      GamePhase.selection, false, false⟩ (by decide) (by decide)
  exact ⟨h.1, h.2.2.2.2⟩

/-- C6: illegal session events are no-ops, not failures — a click outside the
selection phase, with a full hand, or on an already-selected identity leaves the
state unchanged; committing with fewer than 5 cards leaves the state unchanged
(so a selecting session stays selecting); reset from any state returns to the
selection phase with an empty hand. -/
theorem C6_transition_legality :
    (∀ (s : AppState) (card : Card),
      s.gamePhase ≠ GamePhase.selection ∨ 5 ≤ s.selectedCards.length ∨
        (∃ c ∈ s.selectedCards, c.suit = card.suit ∧ c.value = card.value) →
      handleCardClick s card = s) ∧
    (∀ s : AppState, s.selectedCards.length < 5 →
      handleReorder s = s ∧
      (s.gamePhase = GamePhase.selection → (handleReorder s).gamePhase = GamePhase.selection)) ∧
    (∀ (coin : Nat → Bool) (s : AppState),
      (handleReset coin s).gamePhase = GamePhase.selection ∧
      (handleReset coin s).selectedCards = []) := by
  refine ⟨?_, ?_, ?_⟩
  · intro s card hd
    rw [handleCardClick]
    split_ifs with h1 h2 h3
    · rfl
    · rfl
    · rfl
    · exfalso
      rcases hd with h | h | h
      · exact h1 h
      · exact h2 h
      · rcases h with ⟨c, hc, hs, hv⟩
        apply h3
        simp only [List.any_eq_true, Bool.and_eq_true, beq_iff_eq]
        exact ⟨c, hc, hs, hv⟩
  · intro s h
    have heq : handleReorder s = s := by
      rw [handleReorder, if_pos (show s.selectedCards.length ≠ 5 by omega)]
    exact ⟨heq, fun hp => by rw [heq]; exact hp⟩
  · intro coin s
    exact ⟨rfl, rfl⟩

theorem C6_witness :
    handleCardClick ⟨[], [], [], GamePhase.reordered, false, false⟩ dummyCard
        = ⟨[], [], [], GamePhase.reordered, false, false⟩ ∧
    handleReorder ⟨[], [], [], GamePhase.selection, false, false⟩
        = ⟨[], [], [], GamePhase.selection, false, false⟩ ∧
    (handleReset (fun _ => true)
        ⟨[], [dummyCard], [dummyCard], GamePhase.reordered, false, true⟩).gamePhase
        = GamePhase.selection ∧
    (handleReset (fun _ => true)
        ⟨[], [dummyCard], [dummyCard], GamePhase.reordered, false, true⟩).selectedCards
        = [] :=
  ⟨C6_transition_legality.1 _ dummyCard (Or.inl (by decide)),
   (C6_transition_legality.2.1 _ (by decide)).1,
   (C6_transition_legality.2.2 (fun _ => true) _).1,
   (C6_transition_legality.2.2 (fun _ => true) _).2⟩

theorem C3_witness :
    (getCardNumber ⟨"hearts", 5, "x"⟩ = 5 + (suitOrder "hearts").getD 0 * 13 ∧
      1 ≤ getCardNumber ⟨"hearts", 5, "x"⟩ ∧ getCardNumber ⟨"hearts", 5, "x"⟩ ≤ 52) ∧
    ∃ s ∈ suits, ∃ v ∈ (List.range 13).map (fun i => i + 1),
      getCardNumber ⟨s, v, ""⟩ = 40 :=
  ⟨C3_cardNumber_bijection.2.1 ⟨"hearts", 5, "x"⟩ (by decide) (by decide) (by decide),
   C3_cardNumber_bijection.2.2.2 40 (by decide) (by decide)⟩
